import Mathlib

/-!
Verification development for a bounded-concurrency task scheduler
(src/concurrency-limiter.ts, class ConcurrencyLimiter) and its HTTP adapter
(src/http-request-limiter.ts, class HttpRequestLimiter).

The scheduler is embedded as a state machine.  The state mirrors the class's
private fields (maxConcurrent, activeCount, queue) together with ghost
instrumentation recording the order in which tasks were started, which tasks
are currently in flight, what each caller-visible handle settled with, and
how many submissions/completions have occurred.  Counters are `Int` because
the source fields are JavaScript numbers mutated by increment and decrement
operators.

Asynchrony is modelled by events: a `submit` event is a call to `enqueue`;
a `complete` event is the settlement of a started task's promise, which in
the source fires the `.then`/`.catch` forwarding followed by the `.finally`
handler (decrement `activeCount`, re-run `#drain`).  Task identities are
natural numbers standing for the closure identities of queue items.
-/

namespace CL

/-- Settlement of a JavaScript promise: fulfilled with a value or rejected
with a reason.  `V` is the type of both payloads; equality on `V` stands for
JavaScript reference identity. -/
inductive Outcome (V : Type) where
  | success (v : V)
  | failure (e : V)
  deriving DecidableEq

/-- State of one `ConcurrencyLimiter` instance.  The first three fields are
the class's private fields; the rest are ghost instrumentation used only to
state properties (they do not influence the dynamics). -/
structure Limiter (V : Type) where
  /-- Field maxConcurrent: hard cap on simultaneous in-flight tasks. -/
  maxConcurrent : Int
  /-- Field activeCount: number of tasks currently executing. -/
  activeCount : Int
  /-- Field queue: FIFO queue of waiting items, identified by task ids. -/
  queue : List Nat
  /-- Ghost: ids of tasks whose work has been invoked, in invocation order. -/
  started : List Nat
  /-- Ghost: ids of tasks started and not yet settled (in flight). -/
  running : List Nat
  /-- Ghost: settlements delivered to caller handles, in delivery order. -/
  results : List (Nat × Outcome V)
  /-- Ghost: number of enqueue calls so far. -/
  submittedCount : Nat
  /-- Ghost: number of task completions processed so far. -/
  completedCount : Nat
  deriving DecidableEq

variable {V : Type}

/-- Translation of the synchronous part of the private method run: claim the
slot (activeCount increment happens before the task is invoked), record the
invocation.  The attached `.then`/`.catch`/`.finally` handlers fire later, at
the task's `complete` event. -/
def run (s : Limiter V) (item : Nat) : Limiter V :=
  { s with
    activeCount := s.activeCount + 1
    started := s.started ++ [item]
    running := s.running ++ [item] }

/-- The while loop of the private method drain, with explicit fuel.  Each
iteration removes one item from the queue, so `s.queue.length` fuel is
exactly enough for the loop to run to its exit condition. -/
def drainGo : Nat → Limiter V → Limiter V
  | 0, s => s
  | fuel + 1, s =>
    if s.activeCount < s.maxConcurrent then
      match s.queue with
      | [] => s
      | item :: rest => drainGo fuel (run { s with queue := rest } item)
    else s

/-- The private method drain: claim as many slots as are currently free and
tasks are waiting, synchronously, shifting items from the front of the
queue. -/
def drain (s : Limiter V) : Limiter V :=
  drainGo s.queue.length s

/-- Method enqueue: the promise executor runs synchronously and pushes the
new item at the tail of the queue, then drain is called to immediately fill
any free slot. -/
def enqueue (s : Limiter V) (id : Nat) : Limiter V :=
  drain { s with
    queue := s.queue ++ [id]
    submittedCount := s.submittedCount + 1 }

/-- The `.then`/`.catch` forwarding inside run: on fulfilment the value is
passed to item.resolve unchanged, on rejection the reason is passed to
item.reject unchanged. -/
def settleHandle : Outcome V → Outcome V
  | .success v => .success v
  | .failure e => .failure e

/-- Settlement bookkeeping for a completing task: the caller's handle is
settled via `settleHandle`, and the task leaves the in-flight set. -/
def settle (s : Limiter V) (id : Nat) (o : Outcome V) : Limiter V :=
  { s with
    results := s.results ++ [(id, settleHandle o)]
    running := s.running.erase id
    completedCount := s.completedCount + 1 }

/-- The decrement in the `.finally` handler of run. -/
def releaseSlot (s : Limiter V) : Limiter V :=
  { s with activeCount := s.activeCount - 1 }

/-- Completion of a started task with outcome `o`: the `.then`/`.catch`
handlers forward the outcome to the caller's handle, then the `.finally`
handler decrements activeCount and re-runs drain.  Guarded on the task being
in flight: only started, unsettled tasks can complete. -/
def finishTask (s : Limiter V) (id : Nat) (o : Outcome V) : Limiter V :=
  if s.running.contains id then drain (releaseSlot (settle s id o)) else s

/-- Observable events of one limiter instance. -/
inductive Event (V : Type) where
  | submit (id : Nat)
  | complete (id : Nat) (o : Outcome V)

/-- One event of the limiter's lifetime. -/
def step (s : Limiter V) : Event V → Limiter V
  | .submit id => enqueue s id
  | .complete id o => finishTask s id o

/-- A whole sequence of submissions and completions. -/
def runTrace (s : Limiter V) (es : List (Event V)) : Limiter V :=
  es.foldl step s

/-- The ids of the submit events of a trace, in order. -/
def submitsOf : List (Event V) → List Nat
  | [] => []
  | .submit id :: es => id :: submitsOf es
  | .complete _ _ :: es => submitsOf es

/-- Shape of the object returned by the stats getter (src/types.ts,
LimiterStats). -/
structure LimiterStats where
  maxConcurrent : Int
  activeCount : Int
  queueLength : Nat
  deriving DecidableEq

/-- The stats getter: a plain object built from the three fields at call
time. -/
def stats (s : Limiter V) : LimiterStats :=
  { maxConcurrent := s.maxConcurrent
    activeCount := s.activeCount
    queueLength := s.queue.length }

/-- Freshly constructed limiter with validated capacity `c`: activeCount
initialized to 0, queue empty, no history. -/
def init (c : Nat) : Limiter V :=
  { maxConcurrent := (c : Int)
    activeCount := 0
    queue := []
    started := []
    running := []
    results := []
    submittedCount := 0
    completedCount := 0 }

/-- The JavaScript numbers relevant to capacity validation.  `int n` is an
integer-valued number (Number.isInteger true); `mid n r` is a finite
non-integer lying strictly between `n` and `n + 1`, with `r` its decimal
rendering in template literals (for example 1.5 renders as the string 1.5);
`nan` is the not-a-number sentinel. -/
inductive JSNumber where
  | nan
  | int (n : Int)
  | mid (n : Int) (r : String)
  deriving DecidableEq

/-- Number.isInteger. -/
def isInteger : JSNumber → Bool
  | .int _ => true
  | _ => false

/-- The JavaScript comparison x < 1.  Comparisons with NaN are false; a
finite non-integer strictly between n and n + 1 is below 1 exactly when
n + 1 ≤ 1. -/
def ltOne : JSNumber → Bool
  | .nan => false
  | .int n => decide (n < 1)
  | .mid n _ => decide (n + 1 ≤ 1)

/-- Rendering of the number in a template literal: integers print without a
decimal point, NaN prints as the string NaN. -/
def render : JSNumber → String
  | .nan => "NaN"
  | .int n => toString n
  | .mid _ r => r

/-- The error thrown by the constructor.  The source throws the host
language's RangeError, which realizes the spec's ConfigurationError
(domain: invalid-argument). -/
inductive LimiterError where
  | rangeError (message : String)
  deriving DecidableEq

/-- The constructor's error message, with the rendering of the received
value interpolated at the end. -/
def rangeMsg (v : String) : String :=
  "maxConcurrent must be a positive integer ≥ 1, received: " ++ v

/-- Bridge from a validated JSNumber to the stored capacity. -/
def toCapacity : JSNumber → Nat
  | .int n => n.toNat
  | _ => 0

/-- The constructor: reject unless maxConcurrent is an integer ≥ 1, storing
the capacity and the zero-initialized fields otherwise. -/
def create (x : JSNumber) : Except LimiterError (Limiter V) :=
  if !isInteger x || ltOne x then
    .error (.rangeError (rangeMsg (render x)))
  else
    .ok (init (toCapacity x))

/-- A limiter together with the heap of snapshot objects allocated by calls
to the stats getter.  A snapshot's object identity is its index in the
heap; each stats call allocates a fresh plain object. -/
structure World (V : Type) where
  limiter : Limiter V
  heap : List LimiterStats
  deriving DecidableEq

/-- One call to the stats getter: returns (the identity of) a freshly
allocated snapshot object holding the three fields at call time.  The
limiter itself is read, not modified. -/
def statsCall (w : World V) : Nat × World V :=
  (w.heap.length, { w with heap := w.heap ++ [stats w.limiter] })

/-- Scheduler activity in the world: events act on the limiter and touch no
previously allocated snapshot. -/
def worldStep (w : World V) (e : Event V) : World V :=
  { w with limiter := step w.limiter e }

/-- A caller overwriting the fields of a snapshot object it received. -/
def mutateSnapshot (w : World V) (i : Nat) (v : LimiterStats) : World V :=
  { w with heap := w.heap.set i v }

/-- All state components except the delivered results: used to express that
scheduling is insensitive to task outcomes. -/
def schedView (s : Limiter V) : Int × Int × List Nat × List Nat × List Nat × Nat × Nat :=
  (s.maxConcurrent, s.activeCount, s.queue, s.started, s.running,
   s.submittedCount, s.completedCount)

/-- Number of items the drain loop admits from state `s`: bounded by the
free slots and by the queue length. -/
def admitted (s : Limiter V) : Nat :=
  min (s.maxConcurrent - s.activeCount).toNat s.queue.length

/-- Invariant of reachable limiter states. -/
def Inv (s : Limiter V) : Prop :=
  0 ≤ s.activeCount ∧
  s.activeCount ≤ s.maxConcurrent ∧
  0 ≤ s.maxConcurrent ∧
  (s.queue ≠ [] → s.activeCount = s.maxConcurrent) ∧
  s.activeCount + (s.queue.length : Int) + (s.completedCount : Int) =
    (s.submittedCount : Int) ∧
  s.activeCount = (s.running.length : Int)

/-! Closed form of the drain loop: it admits exactly `admitted s` items, all
from the front of the queue, in order. -/

lemma drainGo_eq (fuel : Nat) :
    ∀ s : Limiter V, s.queue.length ≤ fuel →
      drainGo fuel s =
        { s with
          activeCount := s.activeCount + (admitted s : Int)
          queue := s.queue.drop (admitted s)
          started := s.started ++ s.queue.take (admitted s)
          running := s.running ++ s.queue.take (admitted s) } := by
  induction fuel with
  | zero =>
    intro s h
    have hq : s.queue = [] := List.eq_nil_of_length_eq_zero (Nat.le_zero.mp h)
    obtain ⟨mx, ac, q, st, rn, rs, sc, cc⟩ := s
    simp only at hq
    subst hq
    simp [drainGo, admitted]
  | succ n ih =>
    intro s h
    obtain ⟨mx, ac, q, st, rn, rs, sc, cc⟩ := s
    cases q with
    | nil =>
      simp only [drainGo]
      split
      · simp [admitted]
      · simp [admitted]
    | cons item rest =>
      by_cases hlt : ac < mx
      · simp only [drainGo, if_pos hlt]
        rw [ih _ (by simpa using h)]
        have hmin : min (mx - ac).toNat (item :: rest).length
            = min (mx - (ac + 1)).toNat rest.length + 1 := by
          simp only [List.length_cons]; omega
        simp only [run, admitted, hmin, List.take_succ_cons, List.drop_succ_cons,
          Limiter.mk.injEq, List.append_assoc, List.cons_append, List.nil_append,
          true_and, and_true]
        omega
      · simp only [drainGo, if_neg hlt]
        have h0 : (mx - ac).toNat = 0 := by omega
        simp [admitted, h0]

lemma drain_eq (s : Limiter V) :
    drain s =
      { s with
        activeCount := s.activeCount + (admitted s : Int)
        queue := s.queue.drop (admitted s)
        started := s.started ++ s.queue.take (admitted s)
        running := s.running ++ s.queue.take (admitted s) } :=
  drainGo_eq _ s le_rfl

lemma inv_drain (s : Limiter V)
    (h0 : 0 ≤ s.activeCount) (h1 : s.activeCount ≤ s.maxConcurrent)
    (hm : 0 ≤ s.maxConcurrent)
    (hsum : s.activeCount + (s.queue.length : Int) + (s.completedCount : Int) =
      (s.submittedCount : Int))
    (hrun : s.activeCount = (s.running.length : Int)) :
    Inv (drain s) := by
  have hk : admitted s ≤ s.queue.length := Nat.min_le_right _ _
  have hk2 : admitted s ≤ (s.maxConcurrent - s.activeCount).toNat := Nat.min_le_left _ _
  unfold Inv
  rw [drain_eq]
  simp only [List.length_drop, List.length_append, List.length_take, List.drop_eq_nil_iff,
    not_le]
  refine ⟨by omega, by omega, hm, ?_, by omega, by omega⟩
  intro hlt
  rcases Nat.lt_or_ge (s.maxConcurrent - s.activeCount).toNat s.queue.length with hc | hc
  · have hadm : admitted s = (s.maxConcurrent - s.activeCount).toNat :=
      Nat.min_eq_left (Nat.le_of_lt hc)
    rw [hadm]
    omega
  · have hadm : admitted s = s.queue.length := Nat.min_eq_right hc
    rw [hadm] at hlt
    exact absurd (@List.drop_length _ s.queue) hlt

lemma inv_init (c : Nat) : Inv (init (V := V) c) := by
  unfold Inv init
  simp

lemma inv_enqueue (s : Limiter V) (id : Nat) (h : Inv s) : Inv (enqueue s id) := by
  obtain ⟨h0, h1, hm, hq, hsum, hrun⟩ := h
  unfold enqueue
  apply inv_drain <;> simp <;> omega

lemma contains_mem {l : List Nat} {a : Nat} (h : l.contains a = true) : a ∈ l := by
  simpa using h

lemma inv_finishTask (s : Limiter V) (id : Nat) (o : Outcome V) (h : Inv s) :
    Inv (finishTask s id o) := by
  obtain ⟨h0, h1, hm, hq, hsum, hrun⟩ := h
  unfold finishTask
  split
  · rename_i hc
    have hmem : id ∈ s.running := contains_mem hc
    have hlen : 0 < s.running.length := List.length_pos_of_mem hmem
    have herase : (s.running.erase id).length = s.running.length - 1 :=
      List.length_erase_of_mem hmem
    apply inv_drain <;> simp [settle, releaseSlot, herase] <;> omega
  · exact ⟨h0, h1, hm, hq, hsum, hrun⟩

lemma inv_step (s : Limiter V) (e : Event V) (h : Inv s) : Inv (step s e) := by
  cases e with
  | submit id => exact inv_enqueue s id h
  | complete id o => exact inv_finishTask s id o h

lemma inv_runTrace (s : Limiter V) (es : List (Event V)) (h : Inv s) :
    Inv (runTrace s es) := by
  induction es generalizing s with
  | nil => exact h
  | cons e es ih => exact ih _ (inv_step s e h)

lemma step_maxConcurrent (s : Limiter V) (e : Event V) :
    (step s e).maxConcurrent = s.maxConcurrent := by
  cases e with
  | submit id => simp [step, enqueue, drain_eq]
  | complete id o =>
    simp only [step, finishTask]
    split
    · simp [drain_eq, settle, releaseSlot]
    · rfl

lemma runTrace_maxConcurrent (s : Limiter V) (es : List (Event V)) :
    (runTrace s es).maxConcurrent = s.maxConcurrent := by
  induction es generalizing s with
  | nil => rfl
  | cons e es ih =>
    show (runTrace (step s e) es).maxConcurrent = _
    rw [ih, step_maxConcurrent]

lemma step_started_queue (s : Limiter V) (e : Event V) :
    (step s e).started ++ (step s e).queue =
      s.started ++ s.queue ++ submitsOf [e] := by
  cases e with
  | submit id =>
    simp [step, enqueue, drain_eq, submitsOf, List.append_assoc]
  | complete id o =>
    simp only [step, finishTask, submitsOf, List.append_nil]
    split
    · simp [drain_eq, settle, releaseSlot, List.append_assoc]
    · rfl

lemma runTrace_started_queue (s : Limiter V) (es : List (Event V)) :
    (runTrace s es).started ++ (runTrace s es).queue =
      s.started ++ s.queue ++ submitsOf es := by
  induction es generalizing s with
  | nil => simp [runTrace, submitsOf]
  | cons e es ih =>
    show (runTrace (step s e) es).started ++ (runTrace (step s e) es).queue = _
    rw [ih, step_started_queue]
    cases e <;> simp [submitsOf]

/-- One synchronous burst of submissions, starting from a drained state:
as long as slots are free each item starts at its own enqueue call, after
which items accumulate at the tail of the queue. -/
lemma foldl_enqueue (ids : List Nat) :
    ∀ s : Limiter V,
      s.activeCount ≤ s.maxConcurrent →
      (s.queue ≠ [] → s.activeCount = s.maxConcurrent) →
      (ids.foldl enqueue s).started =
        s.started ++
          ids.take (min ids.length (s.maxConcurrent - s.activeCount).toNat) ∧
      (ids.foldl enqueue s).queue =
        s.queue ++
          ids.drop (min ids.length (s.maxConcurrent - s.activeCount).toNat) ∧
      (ids.foldl enqueue s).activeCount =
        s.activeCount +
          (min ids.length (s.maxConcurrent - s.activeCount).toNat : Int) := by
  induction ids with
  | nil => intro s h1 hq; simp
  | cons id ids ih =>
    intro s h1 hq
    by_cases hfree : s.activeCount < s.maxConcurrent
    · have hqe : s.queue = [] := by
        by_contra hne
        exact absurd (hq hne) (by omega)
      have hC : 1 ≤ (s.maxConcurrent - s.activeCount).toNat := by omega
      have hstep : enqueue s id =
          { s with
            activeCount := s.activeCount + 1
            queue := []
            started := s.started ++ [id]
            running := s.running ++ [id]
            submittedCount := s.submittedCount + 1 } := by
        unfold enqueue
        have hadm :
            admitted
              { s with
                queue := s.queue ++ [id]
                submittedCount := s.submittedCount + 1 } = 1 := by
          unfold admitted
          simp [hqe]
          omega
        rw [drain_eq, hadm]
        simp [hqe]
      simp only [List.foldl_cons]
      rw [hstep]
      obtain ⟨ha, hb, hc⟩ := ih
        { s with
          activeCount := s.activeCount + 1
          queue := []
          started := s.started ++ [id]
          running := s.running ++ [id]
          submittedCount := s.submittedCount + 1 }
        (by simp; omega) (by simp)
      rw [ha, hb, hc]
      have hmin : min (id :: ids).length (s.maxConcurrent - s.activeCount).toNat
          = min ids.length (s.maxConcurrent - (s.activeCount + 1)).toNat + 1 := by
        simp only [List.length_cons]
        omega
      rw [hmin, List.take_succ_cons, List.drop_succ_cons]
      refine ⟨by simp, by simp [hqe], ?_⟩
      simp only [List.length_cons]
      push_cast
      omega
    · have hsat : s.activeCount = s.maxConcurrent := le_antisymm h1 (by omega)
      have hC : (s.maxConcurrent - s.activeCount).toNat = 0 := by omega
      have hstep : enqueue s id =
          { s with
            queue := s.queue ++ [id]
            submittedCount := s.submittedCount + 1 } := by
        unfold enqueue
        have hadm :
            admitted
              { s with
                queue := s.queue ++ [id]
                submittedCount := s.submittedCount + 1 } = 0 := by
          unfold admitted
          simp [hC]
        rw [drain_eq, hadm]
        simp
      simp only [List.foldl_cons]
      rw [hstep]
      obtain ⟨ha, hb, hc⟩ := ih
        { s with
          queue := s.queue ++ [id]
          submittedCount := s.submittedCount + 1 }
        (by simpa using h1) (by intro _; simpa using hsat)
      rw [ha, hb, hc]
      refine ⟨by simp [hC], by simp [hC], ?_⟩
      simp only [List.length_cons, hC]
      push_cast
      omega

/-! Results are write-only for the scheduler: every step appends to them and
no scheduling decision reads them.  The next lemmas make this precise and
let outcomes be swapped without disturbing scheduling. -/

lemma drain_set_results (s : Limiter V) (r : List (Nat × Outcome V)) :
    drain { s with results := r } = { drain s with results := r } := by
  rw [drain_eq, drain_eq]
  rfl

lemma mem_contains {l : List Nat} {a : Nat} (h : a ∈ l) : l.contains a = true := by
  simpa using h

lemma finishTask_of_mem (s : Limiter V) (id : Nat) (o : Outcome V)
    (hc : id ∈ s.running) :
    finishTask s id o = drain (releaseSlot (settle s id o)) := by
  unfold finishTask
  rw [if_pos (mem_contains hc)]

lemma finishTask_results (s : Limiter V) (id : Nat) (o : Outcome V)
    (hc : id ∈ s.running) :
    (finishTask s id o).results = s.results ++ [(id, settleHandle o)] := by
  rw [finishTask_of_mem s id o hc, drain_eq]
  rfl

/-- What one event appends to the delivered results. -/
def stepDelta (running : List Nat) : Event V → List (Nat × Outcome V)
  | .submit _ => []
  | .complete id o => if running.contains id then [(id, settleHandle o)] else []

lemma step_results (s : Limiter V) (e : Event V) :
    (step s e).results = s.results ++ stepDelta s.running e := by
  cases e with
  | submit id => simp [step, enqueue, drain_eq, stepDelta]
  | complete id o =>
    simp only [step, finishTask, stepDelta]
    split
    · rw [drain_eq]; rfl
    · simp

lemma step_set_results (s : Limiter V) (r : List (Nat × Outcome V)) (e : Event V) :
    step { s with results := r } e =
      { step s e with results := r ++ stepDelta s.running e } := by
  cases e with
  | submit id =>
    have h1 : step ({ s with results := r } : Limiter V) (.submit id) =
        drain { ({ s with
                   queue := s.queue ++ [id]
                   submittedCount := s.submittedCount + 1 } : Limiter V) with
                results := r } := rfl
    rw [h1, drain_set_results]
    simp [step, enqueue, stepDelta]
  | complete id o =>
    by_cases hc : id ∈ s.running
    · have h1 : step ({ s with results := r } : Limiter V) (.complete id o) =
          drain { (releaseSlot (settle s id o)) with
                  results := r ++ [(id, settleHandle o)] } := by
        show finishTask _ id o = _
        unfold finishTask
        rw [if_pos (mem_contains hc)]
        rfl
      rw [h1, drain_set_results]
      show _ = ({ finishTask s id o with
        results := r ++ stepDelta s.running (.complete id o) } : Limiter V)
      rw [finishTask_of_mem s id o hc]
      simp [stepDelta, hc]
    · have hcf : s.running.contains id = false := by simpa using hc
      show finishTask _ id o = ({ finishTask s id o with
        results := r ++ stepDelta s.running (.complete id o) } : Limiter V)
      simp [finishTask, stepDelta, hc]

/-- What one completion does to the counters, in any reachable state: the
handle settles, completedCount goes up by one, activeCount net change is
exactly the single decrement plus the number of tasks the re-run of drain
starts, and a submit event never lowers activeCount. -/
lemma completion_spec (s : Limiter V) (id : Nat) (o : Outcome V)
    (hInv : Inv s) (h : id ∈ s.running) :
    s.activeCount = (s.running.length : Int) ∧
    (step s (.complete id o)).activeCount
      = s.activeCount - 1
        + (((step s (.complete id o)).started.length : Int)
            - (s.started.length : Int)) ∧
    (step s (.complete id o)).completedCount = s.completedCount + 1 ∧
    ∀ j, s.activeCount ≤ (step s (.submit j)).activeCount := by
  obtain ⟨h0, h1, hm, hq, hsum, hrun⟩ := hInv
  refine ⟨hrun, ?_, ?_, ?_⟩
  · rw [show step s (.complete id o) = finishTask s id o from rfl,
      finishTask_of_mem s id o h, drain_eq]
    have hk : admitted (releaseSlot (settle s id o)) ≤ s.queue.length :=
      Nat.min_le_right _ _
    simp only [settle, releaseSlot, List.length_append, List.length_take] at hk ⊢
    simp
    omega
  · rw [show step s (.complete id o) = finishTask s id o from rfl,
      finishTask_of_mem s id o h, drain_eq]
    simp [settle, releaseSlot]
  · intro j
    rw [show step s (.submit j) = enqueue s j from rfl]
    unfold enqueue
    rw [drain_eq]
    simp

lemma runTrace_set_results (es : List (Event V)) :
    ∀ (s : Limiter V) (r : List (Nat × Outcome V)),
      ∃ d, (runTrace s es).results = s.results ++ d ∧
        runTrace { s with results := r } es =
          { runTrace s es with results := r ++ d } := by
  induction es with
  | nil =>
    intro s r
    exact ⟨[], by simp [runTrace], by simp [runTrace]⟩
  | cons e es ih =>
    intro s r
    obtain ⟨d, hd, hset⟩ := ih (step s e) (r ++ stepDelta s.running e)
    refine ⟨stepDelta s.running e ++ d, ?_, ?_⟩
    · show (runTrace (step s e) es).results = _
      rw [hd, step_results]
      simp
    · show runTrace (step { s with results := r } e) es = _
      rw [step_set_results, hset]
      simp only [runTrace, List.foldl_cons]
      simp [List.append_assoc]

end CL

namespace CLX

/-!
Extended embedding of the same ConcurrencyLimiter source, refining the CL
model with task functions that may throw synchronously when invoked
(violating the declared AsyncTask contract of returning a promise).  In the
source, run increments activeCount and then calls item.task(); if that call
throws, the then/catch/finally chain is never attached, the exception
unwinds out of the while loop in drain and out of enqueue, and the
decrement in the finally handler can never fire.  JavaScript exceptions do
not roll back prior field mutations, so every operation here returns the
state reached at the throw point together with the escaping exception. -/

/-- How a stored task behaves when invoked: either it throws synchronously
with reason `e`, or it returns a promise (which settles later, via a
complete event). -/
inductive TaskBeh (V : Type) where
  | throwsSync (e : V)
  | settles
  deriving DecidableEq

/-- Limiter state; queue items carry their task's behaviour.  `leaked` is
ghost instrumentation listing tasks that threw synchronously: their slot
increment happened but their finally decrement can never run. -/
structure LimiterX (V : Type) where
  maxConcurrent : Int
  activeCount : Int
  queue : List (Nat × TaskBeh V)
  started : List Nat
  running : List Nat
  leaked : List Nat
  results : List (Nat × CL.Outcome V)
  deriving DecidableEq

variable {V : Type}

/-- The private method run with a possibly-throwing task: the slot is
claimed first; if task() throws, no handlers are attached and the exception
escapes (second component). -/
def runX (s : LimiterX V) (item : Nat × TaskBeh V) : LimiterX V × Option V :=
  match item.2 with
  | .throwsSync e =>
    ({ s with
        activeCount := s.activeCount + 1
        started := s.started ++ [item.1]
        leaked := s.leaked ++ [item.1] }, some e)
  | .settles =>
    ({ s with
        activeCount := s.activeCount + 1
        started := s.started ++ [item.1]
        running := s.running ++ [item.1] }, none)

/-- The drain while-loop with fuel; a synchronous throw aborts the loop and
propagates, keeping the mutations made so far. -/
def drainGoX : Nat → LimiterX V → LimiterX V × Option V
  | 0, s => (s, none)
  | fuel + 1, s =>
    if s.activeCount < s.maxConcurrent then
      match s.queue with
      | [] => (s, none)
      | item :: rest =>
        match runX { s with queue := rest } item with
        | (s1, some e) => (s1, some e)
        | (s1, none) => drainGoX fuel s1
    else (s, none)

/-- The private method drain in the extended model. -/
def drainX (s : LimiterX V) : LimiterX V × Option V :=
  drainGoX s.queue.length s

/-- Method enqueue: push, then drain; a synchronous throw from the task
escapes to the submitting caller (second component) without settling the
returned handle. -/
def enqueueX (s : LimiterX V) (id : Nat) (beh : TaskBeh V) : LimiterX V × Option V :=
  drainX { s with queue := s.queue ++ [(id, beh)] }

/-- Events: submissions carry the task behaviour; completions exist only
for tasks that returned a promise. -/
inductive EventX (V : Type) where
  | submit (id : Nat) (beh : TaskBeh V)
  | complete (id : Nat) (o : CL.Outcome V)

/-- Completion of an in-flight task: settle the handle, decrement, drain.
An exception thrown by a task started by this drain escapes into the host's
unhandled-rejection machinery; the state is kept. -/
def finishX (s : LimiterX V) (id : Nat) (o : CL.Outcome V) : LimiterX V :=
  if s.running.contains id then
    (drainX { s with
        results := s.results ++ [(id, o)]
        running := s.running.erase id
        activeCount := s.activeCount - 1 }).1
  else s

/-- One event. -/
def stepX (s : LimiterX V) : EventX V → LimiterX V
  | .submit id beh => (enqueueX s id beh).1
  | .complete id o => finishX s id o

/-- A sequence of events. -/
def runTraceX (s : LimiterX V) (es : List (EventX V)) : LimiterX V :=
  es.foldl stepX s

/-- Slot accounting in the extended model: `activeCount` counts in-flight
tasks plus leaked slots. -/
def InvX (s : LimiterX V) : Prop :=
  s.activeCount = (s.running.length : Int) + (s.leaked.length : Int)

lemma invX_drainGoX (fuel : Nat) :
    ∀ s : LimiterX V, InvX s →
      InvX (drainGoX fuel s).1 ∧
        s.leaked.length ≤ ((drainGoX fuel s).1).leaked.length := by
  induction fuel with
  | zero => intro s h; exact ⟨h, le_rfl⟩
  | succ n ih =>
    intro s h
    unfold drainGoX
    split
    · match hq : s.queue with
      | [] => exact ⟨h, le_rfl⟩
      | item :: rest =>
        match hb : item.2 with
        | .throwsSync e =>
          simp only [runX, hb]
          unfold InvX at h ⊢
          constructor
          · simp
            omega
          · simp
        | .settles =>
          simp only [runX, hb]
          have := ih
            { s with
              queue := rest
              activeCount := s.activeCount + 1
              started := s.started ++ [item.1]
              running := s.running ++ [item.1] }
            (by unfold InvX at h ⊢; simp; omega)
          simpa using this
    · exact ⟨h, le_rfl⟩

lemma invX_stepX (s : LimiterX V) (e : EventX V) (h : InvX s) :
    InvX (stepX s e) ∧ s.leaked.length ≤ (stepX s e).leaked.length := by
  cases e with
  | submit id beh =>
    have := invX_drainGoX (s.queue ++ [(id, beh)]).length
      { s with queue := s.queue ++ [(id, beh)] }
      (by unfold InvX at h ⊢; simpa using h)
    simpa [stepX, enqueueX, drainX] using this
  | complete id o =>
    simp only [stepX, finishX]
    split
    · rename_i hc
      have hmem : id ∈ s.running := by simpa using hc
      have hlen : 0 < s.running.length := List.length_pos_of_mem hmem
      have herase : (s.running.erase id).length = s.running.length - 1 :=
        List.length_erase_of_mem hmem
      have := invX_drainGoX (s.queue.length)
        { s with
          results := s.results ++ [(id, o)]
          running := s.running.erase id
          activeCount := s.activeCount - 1 }
        (by unfold InvX at h ⊢; simp [herase]; omega)
      simpa [drainX] using this
    · exact ⟨h, le_rfl⟩

lemma invX_runTraceX (s : LimiterX V) (es : List (EventX V)) (h : InvX s) :
    InvX (runTraceX s es) ∧ s.leaked.length ≤ (runTraceX s es).leaked.length := by
  induction es generalizing s with
  | nil => exact ⟨h, le_rfl⟩
  | cons e es ih =>
    obtain ⟨h1, h2⟩ := invX_stepX s e h
    obtain ⟨h3, h4⟩ := ih (stepX s e) h1
    exact ⟨h3, le_trans h2 h4⟩

end CLX

namespace HRL

/-!
Embedding of the options merging performed by HttpRequestLimiter.request
(src/http-request-limiter.ts).  JavaScript objects are modelled as
association lists keyed by strings; lookup returns the value of the first
matching key.
-/

variable {α : Type}

/-- JavaScript object spread of `b` over `a`: keys of `a` keep their
positions but take the value from `b` when `b` also has the key; keys
appearing only in `b` follow, in order. -/
def spreadObj (a b : List (String × α)) : List (String × α) :=
  a.map (fun p =>
    match b.lookup p.1 with
    | some v => (p.1, v)
    | none => p)
    ++ b.filter (fun q => (a.lookup q.1).isNone)

lemma lookup_append (l1 l2 : List (String × α)) (k : String) :
    (l1 ++ l2).lookup k = (l1.lookup k).or (l2.lookup k) := by
  induction l1 with
  | nil => simp [Option.or]
  | cons p l ih =>
    obtain ⟨k1, v1⟩ := p
    by_cases hk : k = k1
    · subst hk
      simp [List.lookup_cons, Option.or]
    · have hb : (k == k1) = false := by simpa using hk
      simp [List.lookup_cons, hb, ih]

lemma lookup_map_override (a b : List (String × α)) (k : String) :
    (a.map (fun p =>
      match b.lookup p.1 with
      | some v => (p.1, v)
      | none => p)).lookup k
      = (a.lookup k).map (fun v => (b.lookup k).getD v) := by
  induction a with
  | nil => simp
  | cons p a ih =>
    obtain ⟨k1, v1⟩ := p
    by_cases hk : k = k1
    · subst hk
      cases hb : b.lookup k <;>
        simp [List.lookup_cons, hb]
    · have hb : (k == k1) = false := by simpa using hk
      cases hbk : b.lookup k1 <;>
        simp [List.lookup_cons, hb, hbk, ih]

lemma lookup_filter_isNone (a b : List (String × α)) (k : String) :
    (b.filter (fun q => (a.lookup q.1).isNone)).lookup k
      = if (a.lookup k).isNone then b.lookup k else none := by
  induction b with
  | nil => simp
  | cons q b ih =>
    obtain ⟨k1, v1⟩ := q
    by_cases hk : k = k1
    · subst hk
      cases ha : (a.lookup k).isNone <;>
        simp [List.filter_cons, ha, List.lookup_cons, ih]
    · have hb : (k == k1) = false := by simpa using hk
      cases ha : (a.lookup k1).isNone <;>
        simp [List.filter_cons, ha, List.lookup_cons, hb, ih]

/-- Lookup semantics of object spread: the right (later) object wins on
every key, and keys present in only one side are preserved. -/
lemma lookup_spreadObj (a b : List (String × α)) (k : String) :
    (spreadObj a b).lookup k = (b.lookup k).or (a.lookup k) := by
  unfold spreadObj
  rw [lookup_append, lookup_map_override, lookup_filter_isNone]
  cases ha : a.lookup k <;> cases hb : b.lookup k <;> simp [Option.or]

/-- The slice of a fetch RequestInit relevant to the merge: the non-header
options (method, body, mode, ...) as one record, and the headers record,
which may be absent. -/
structure RequestInit where
  fields : List (String × String)
  headers : Option (List (String × String))
  deriving DecidableEq

/-- The merged init built by request: top-level spread of the per-call init
over the defaults, with the headers key overridden by a dedicated key-by-key
spread of the two header records (an absent headers record spreads as the
empty object). -/
def mergedInit (dflt : RequestInit) (init : Option RequestInit) : RequestInit :=
  { fields := spreadObj dflt.fields ((init.map RequestInit.fields).getD [])
    headers := some (spreadObj (dflt.headers.getD [])
      ((init.bind RequestInit.headers).getD [])) }

end HRL

/-!
Claim theorems.  Each theorem settles one claim of the specification
against the embedded ConcurrencyLimiter / HttpRequestLimiter semantics.
-/

/-- C1: for every scheduler created with capacity c and every sequence of
submit and completion events, 0 ≤ activeCount (the running counter) ≤ c at
all times, and — admission having run synchronously to completion at each
event — activeCount equals min c (submitted and not yet completed). -/
theorem C1_capacity_invariant {V : Type} (c : Nat) (es : List (CL.Event V)) :
    0 ≤ (CL.runTrace (CL.init c) es).activeCount ∧
    (CL.runTrace (CL.init c) es).activeCount ≤ (c : Int) ∧
    (CL.runTrace (CL.init c) es).activeCount =
      min (c : Int)
        (((CL.runTrace (CL.init c) es).submittedCount : Int) -
          ((CL.runTrace (CL.init c) es).completedCount : Int)) := by
  have hmx := CL.runTrace_maxConcurrent (CL.init (V := V) c) es
  rw [show (CL.init (V := V) c).maxConcurrent = (c : Int) from rfl] at hmx
  obtain ⟨h0, h1, hm, hq, hsum, hrun⟩ := CL.inv_runTrace (CL.init c) es (CL.inv_init c)
  rw [hmx] at h1 hq
  refine ⟨h0, h1, ?_⟩
  rcases eq_or_ne (CL.runTrace (CL.init (V := V) c) es).queue [] with hqe | hqe
  · have hlen : (CL.runTrace (CL.init (V := V) c) es).queue.length = 0 := by
      rw [hqe]
      rfl
    omega
  · have hsat := hq hqe
    have hlen : 0 < (CL.runTrace (CL.init (V := V) c) es).queue.length :=
      List.length_pos.mpr hqe
    omega

/-- C2: items are started in exactly submission order, none reordered, none
skipped: at any point of any trace, the ids started so far followed by the
ids still waiting are exactly the submitted ids in submission order (so the
started ids are a prefix of the submission order, for every capacity,
including capacity 1). -/
theorem C2_fifo_start_order {V : Type} (c : Nat) (es : List (CL.Event V)) :
    (CL.runTrace (CL.init c) es).started ++ (CL.runTrace (CL.init c) es).queue
      = CL.submitsOf es := by
  have h := CL.runTrace_started_queue (CL.init (V := V) c) es
  simpa [CL.init] using h

/-- C3: in any reachable state, activeCount counts exactly the in-flight
tasks (no slot is leaked); completing a started task — with success or
failure alike — decrements activeCount exactly once and then re-runs
admission (the net change is the single decrement plus the newly started
tasks), counts as exactly one completion, and a submit event never lowers
activeCount (completion is the only decreasing step). -/
theorem C3_completion_single_decrement {V : Type} (c : Nat)
    (es : List (CL.Event V)) (id : Nat) (o : CL.Outcome V)
    (h : id ∈ (CL.runTrace (CL.init c) es).running) :
    (CL.runTrace (CL.init c) es).activeCount
        = ((CL.runTrace (CL.init c) es).running.length : Int) ∧
    (CL.step (CL.runTrace (CL.init c) es) (.complete id o)).activeCount
        = (CL.runTrace (CL.init c) es).activeCount - 1
          + (((CL.step (CL.runTrace (CL.init c) es) (.complete id o)).started.length : Int)
              - ((CL.runTrace (CL.init c) es).started.length : Int)) ∧
    (CL.step (CL.runTrace (CL.init c) es) (.complete id o)).completedCount
        = (CL.runTrace (CL.init c) es).completedCount + 1 ∧
    ∀ j, (CL.runTrace (CL.init c) es).activeCount
        ≤ (CL.step (CL.runTrace (CL.init c) es) (.submit j)).activeCount :=
  CL.completion_spec (CL.runTrace (CL.init c) es) id o
    (CL.inv_runTrace (CL.init c) es (CL.inv_init c)) h

/-- Witness for C3 at capacity 1 with one submitted task completing in
failure. -/
theorem C3_witness :
    0 ∈ (CL.runTrace (CL.init (V := Nat) 1) [CL.Event.submit 0]).running ∧
    (CL.step (CL.runTrace (CL.init (V := Nat) 1) [CL.Event.submit 0])
        (.complete 0 (.failure 9))).completedCount
      = (CL.runTrace (CL.init (V := Nat) 1) [CL.Event.submit 0]).completedCount + 1 :=
  ⟨by decide,
    (C3_completion_single_decrement 1 [CL.Event.submit 0] 0
      (.failure 9) (by decide)).2.2.1⟩

/-- C4: the admission loop runs synchronously to completion.  (a) Whenever
drain runs with K free slots (K = maxConcurrent - activeCount) and at least
K items waiting, exactly the first K waiting items are started, in order,
before control returns, and the capacity is saturated.  (b) When a burst of
items is submitted one after another to a drained scheduler with free
capacity C, exactly min(N, C) of them start immediately in submission order
and the rest queue in order. -/
theorem C4_admission_synchronous {V : Type} (s : CL.Limiter V) (ids : List Nat) :
    (s.activeCount ≤ s.maxConcurrent →
      (s.maxConcurrent - s.activeCount).toNat ≤ s.queue.length →
      (CL.drain s).started
          = s.started ++ s.queue.take (s.maxConcurrent - s.activeCount).toNat ∧
        (CL.drain s).queue = s.queue.drop (s.maxConcurrent - s.activeCount).toNat ∧
        (CL.drain s).activeCount = s.maxConcurrent) ∧
    (s.queue = [] → s.activeCount ≤ s.maxConcurrent →
      (ids.foldl CL.enqueue s).started
          = s.started
              ++ ids.take (min ids.length (s.maxConcurrent - s.activeCount).toNat) ∧
        (ids.foldl CL.enqueue s).queue
          = ids.drop (min ids.length (s.maxConcurrent - s.activeCount).toNat)) := by
  constructor
  · intro hle hK
    have hadm : CL.admitted s = (s.maxConcurrent - s.activeCount).toNat :=
      Nat.min_eq_left hK
    rw [CL.drain_eq]
    refine ⟨by rw [hadm], by rw [hadm], ?_⟩
    rw [hadm]
    simp only []
    omega
  · intro hq hle
    obtain ⟨ha, hb, hc⟩ :=
      CL.foldl_enqueue ids s hle (fun hne => absurd hq hne)
    refine ⟨ha, ?_⟩
    rw [hb, hq]
    simp

/-- Witness for C4: a scheduler of capacity 2 with three items waiting
starts exactly the first two on drain; a burst of two submissions into a
drained scheduler of capacity 2 with one slot occupied starts one and
queues one. -/
theorem C4_witness :
    ((CL.Limiter.mk (V := Nat) 2 0 [5, 6, 7] [] [] [] 3 0).activeCount
        ≤ (CL.Limiter.mk (V := Nat) 2 0 [5, 6, 7] [] [] [] 3 0).maxConcurrent) ∧
    (((CL.Limiter.mk (V := Nat) 2 0 [5, 6, 7] [] [] [] 3 0).maxConcurrent
        - (CL.Limiter.mk (V := Nat) 2 0 [5, 6, 7] [] [] [] 3 0).activeCount).toNat
        ≤ (CL.Limiter.mk (V := Nat) 2 0 [5, 6, 7] [] [] [] 3 0).queue.length) ∧
    (CL.drain (CL.Limiter.mk (V := Nat) 2 0 [5, 6, 7] [] [] [] 3 0)).activeCount
        = (CL.Limiter.mk (V := Nat) 2 0 [5, 6, 7] [] [] [] 3 0).maxConcurrent ∧
    ([8, 9].foldl CL.enqueue (CL.Limiter.mk (V := Nat) 2 1 [] [4] [4] [] 1 0)).queue
        = [8, 9].drop
            (min ([8, 9] : List Nat).length
              ((CL.Limiter.mk (V := Nat) 2 1 [] [4] [4] [] 1 0).maxConcurrent
                - (CL.Limiter.mk (V := Nat) 2 1 [] [4] [4] [] 1 0).activeCount).toNat) :=
  ⟨by decide, by decide,
    ((C4_admission_synchronous
        (CL.Limiter.mk (V := Nat) 2 0 [5, 6, 7] [] [] [] 3 0) []).1
      (by decide) (by decide)).2.2,
    ((C4_admission_synchronous
        (CL.Limiter.mk (V := Nat) 2 1 [] [4] [4] [] 1 0) [8, 9]).2
      (by decide) (by decide)).2⟩

/-- C5: construction rejects every capacity that is not an integer ≥ 1 —
zero, negatives, fractional values, NaN — throwing the invalid-argument
range error whose message ends with the rendering of the literal offending
value, and accepts every integer ≥ 1, initializing activeCount = 0 and an
empty queue. -/
theorem C5_construction_validation {V : Type} (x : CL.JSNumber) :
    ((∀ n : Int, x = CL.JSNumber.int n → n < 1) →
      CL.create (V := V) x =
        .error (.rangeError
          ("maxConcurrent must be a positive integer ≥ 1, received: "
            ++ CL.render x))) ∧
    (∀ n : Int, x = CL.JSNumber.int n → 1 ≤ n →
      CL.create (V := V) x = .ok (CL.init n.toNat) ∧
      (CL.init (V := V) n.toNat).activeCount = 0 ∧
      (CL.init (V := V) n.toNat).queue = []) := by
  cases x with
  | nan =>
    refine ⟨fun _ => rfl, ?_⟩
    intro n heq
    exact absurd heq (by simp)
  | int m =>
    constructor
    · intro h
      have hm : m < 1 := h m rfl
      simp [CL.create, CL.isInteger, CL.ltOne, hm, CL.rangeMsg, CL.render]
    · intro n heq h1
      obtain rfl : m = n := by injection heq
      have hm : ¬ m < 1 := by omega
      refine ⟨?_, rfl, rfl⟩
      simp [CL.create, CL.isInteger, CL.ltOne, hm, CL.toCapacity]
  | mid m r =>
    refine ⟨fun _ => rfl, ?_⟩
    intro n heq
    exact absurd heq (by simp)

/-- Witness for C5: 1.5 is rejected with the message carrying the literal
rendering, and 100 is accepted with zeroed state. -/
theorem C5_witness :
    (∀ n : Int, CL.JSNumber.mid 1 "1.5" = CL.JSNumber.int n → n < 1) ∧
    CL.create (V := Nat) (CL.JSNumber.mid 1 "1.5") =
      .error (.rangeError
        ("maxConcurrent must be a positive integer ≥ 1, received: "
          ++ CL.render (CL.JSNumber.mid 1 "1.5"))) ∧
    CL.create (V := Nat) (CL.JSNumber.int 100) = .ok (CL.init (100 : Int).toNat) ∧
    (CL.init (V := Nat) ((100 : Int)).toNat).activeCount = 0 ∧
    (CL.init (V := Nat) ((100 : Int)).toNat).queue = [] :=
  by
  refine ⟨?_, ?_, ?_, ?_, ?_⟩
  · exact fun n h => nomatch h
  · exact (C5_construction_validation (CL.JSNumber.mid 1 "1.5")).1 (fun n h => nomatch h)
  · exact ((C5_construction_validation (CL.JSNumber.int 100)).2 100 rfl (by decide)).1
  · exact ((C5_construction_validation (CL.JSNumber.int 100)).2 100 rfl (by decide)).2.1
  · exact ((C5_construction_validation (CL.JSNumber.int 100)).2 100 rfl (by decide)).2.2

/-- C6: the handle returned by enqueue settles with exactly the outcome the
work produces: the then/catch forwarding is the identity on outcomes, and a
task completing with outcome o delivers exactly (id, o) to its caller's
handle — same success value, reference-identical failure value, no
wrapping. -/
theorem C6_outcome_identity {V : Type} (s : CL.Limiter V) (id : Nat)
    (o : CL.Outcome V) (h : id ∈ s.running) :
    (∀ o2 : CL.Outcome V, CL.settleHandle o2 = o2) ∧
    (CL.finishTask s id o).results = s.results ++ [(id, o)] := by
  refine ⟨fun o2 => by cases o2 <;> rfl, ?_⟩
  rw [CL.finishTask_results s id o h]
  cases o <;> rfl

/-- Witness for C6: a failure value is delivered unchanged. -/
theorem C6_witness :
    0 ∈ (CL.Limiter.mk (V := Nat) 1 1 [] [0] [0] [] 1 0).running ∧
    (CL.finishTask (CL.Limiter.mk (V := Nat) 1 1 [] [0] [0] [] 1 0) 0
        (.failure 42)).results
      = (CL.Limiter.mk (V := Nat) 1 1 [] [0] [0] [] 1 0).results
          ++ [(0, CL.Outcome.failure 42)] :=
  ⟨by decide,
    (C6_outcome_identity (CL.Limiter.mk (V := Nat) 1 1 [] [0] [0] [] 1 0) 0
      (.failure 42) (by decide)).2⟩

/-- C7: a failing task does not prevent, delay, or alter the outcome of any
later task: completing a task with a failure instead of a success leaves
every scheduling component (counters, queue, start order, in-flight set)
of every subsequent state identical, and the delivered results of all other
tasks are the same list `d`; only that task's own result entry differs. -/
theorem C7_error_isolation {V : Type} (s : CL.Limiter V) (id : Nat) (v e : V)
    (es : List (CL.Event V)) (h : id ∈ s.running) :
    ∃ d,
      (CL.runTrace (CL.finishTask s id (.failure e)) es).results
          = s.results ++ (id, CL.Outcome.failure e) :: d ∧
      (CL.runTrace (CL.finishTask s id (.success v)) es).results
          = s.results ++ (id, CL.Outcome.success v) :: d ∧
      CL.schedView (CL.runTrace (CL.finishTask s id (.failure e)) es)
          = CL.schedView (CL.runTrace (CL.finishTask s id (.success v)) es) := by
  have hF : CL.finishTask s id (.failure e)
      = { CL.finishTask s id (.success v) with
          results := s.results ++ [(id, CL.Outcome.failure e)] } := by
    rw [CL.finishTask_of_mem s id (.failure e) h,
      CL.finishTask_of_mem s id (.success v) h]
    rw [show CL.releaseSlot (CL.settle s id (.failure e))
        = { CL.releaseSlot (CL.settle s id (.success v)) with
            results := s.results ++ [(id, CL.Outcome.failure e)] } from rfl]
    rw [CL.drain_set_results]
  obtain ⟨d, hd, hset⟩ :=
    CL.runTrace_set_results es (CL.finishTask s id (.success v))
      (s.results ++ [(id, CL.Outcome.failure e)])
  refine ⟨d, ?_, ?_, ?_⟩
  · rw [hF, hset]
    simp
  · rw [hd, CL.finishTask_results s id (.success v) h]
    simp [CL.settleHandle]
  · rw [hF, hset]
    rfl

/-- Witness for C7: after one task fails, a second queued task runs and
completes exactly as it would after a success. -/
theorem C7_witness :
    0 ∈ (CL.Limiter.mk (V := Nat) 1 1 [1] [0] [0] [] 2 0).running ∧
    ∃ d,
      (CL.runTrace
          (CL.finishTask (CL.Limiter.mk (V := Nat) 1 1 [1] [0] [0] [] 2 0) 0
            (.failure 7))
          [CL.Event.complete 1 (.success 8)]).results
          = (CL.Limiter.mk (V := Nat) 1 1 [1] [0] [0] [] 2 0).results
              ++ (0, CL.Outcome.failure 7) :: d ∧
      (CL.runTrace
          (CL.finishTask (CL.Limiter.mk (V := Nat) 1 1 [1] [0] [0] [] 2 0) 0
            (.success 5))
          [CL.Event.complete 1 (.success 8)]).results
          = (CL.Limiter.mk (V := Nat) 1 1 [1] [0] [0] [] 2 0).results
              ++ (0, CL.Outcome.success 5) :: d ∧
      CL.schedView (CL.runTrace
          (CL.finishTask (CL.Limiter.mk (V := Nat) 1 1 [1] [0] [0] [] 2 0) 0
            (.failure 7))
          [CL.Event.complete 1 (.success 8)])
          = CL.schedView (CL.runTrace
              (CL.finishTask (CL.Limiter.mk (V := Nat) 1 1 [1] [0] [0] [] 2 0) 0
                (.success 5))
              [CL.Event.complete 1 (.success 8)]) :=
  ⟨by decide,
    C7_error_isolation (CL.Limiter.mk (V := Nat) 1 1 [1] [0] [0] [] 2 0) 0 5 7
      [CL.Event.complete 1 (.success 8)] (by decide)⟩

/-- Scheduler events never touch previously allocated stats snapshots. -/
lemma foldl_worldStep_heap {V : Type} (es : List (CL.Event V)) :
    ∀ w : CL.World V, (es.foldl CL.worldStep w).heap = w.heap := by
  induction es with
  | nil => intro w; rfl
  | cons e es ih =>
    intro w
    show (es.foldl CL.worldStep (CL.worldStep w e)).heap = _
    rw [ih]
    rfl

/-- C8: each call to the stats getter leaves the limiter untouched and
returns a freshly allocated snapshot — two calls return distinct objects —
whose fields are the capacity, activeCount and queue length at call time;
subsequent scheduler activity never changes an already returned snapshot,
and overwriting a returned snapshot never changes the limiter. -/
theorem C8_stats_snapshot {V : Type} (w : CL.World V) (es : List (CL.Event V))
    (i : Nat) (v : CL.LimiterStats) :
    ((CL.statsCall w).2).limiter = w.limiter ∧
    ((CL.statsCall (CL.statsCall w).2).2).limiter = w.limiter ∧
    (CL.statsCall w).1 ≠ (CL.statsCall (CL.statsCall w).2).1 ∧
    ((CL.statsCall (CL.statsCall w).2).2).heap[(CL.statsCall w).1]?
        = some (CL.stats w.limiter) ∧
    (CL.stats w.limiter).maxConcurrent = w.limiter.maxConcurrent ∧
    (CL.stats w.limiter).activeCount = w.limiter.activeCount ∧
    (CL.stats w.limiter).queueLength = w.limiter.queue.length ∧
    (es.foldl CL.worldStep ((CL.statsCall (CL.statsCall w).2).2)).heap[(CL.statsCall w).1]?
        = some (CL.stats w.limiter) ∧
    (CL.mutateSnapshot ((CL.statsCall (CL.statsCall w).2).2) i v).limiter
        = ((CL.statsCall (CL.statsCall w).2).2).limiter := by
  have hlook :
      ((CL.statsCall (CL.statsCall w).2).2).heap[(CL.statsCall w).1]?
        = some (CL.stats w.limiter) := by
    show ((w.heap ++ [CL.stats w.limiter]) ++ [_])[w.heap.length]? = _
    rw [List.getElem?_append_left (by simp)]
    rw [List.getElem?_append_right le_rfl]
    simp
  refine ⟨rfl, rfl, ?_, hlook, rfl, rfl, rfl, ?_, rfl⟩
  · show w.heap.length ≠ (w.heap ++ [CL.stats w.limiter]).length
    simp
  · rw [foldl_worldStep_heap]
    exact hlook

/-- C9: the merged fetch options satisfy the override contract — for every
non-header field the per-call value wins whenever present, otherwise the
default survives; headers are merged key-by-key with per-call values
winning and every key present in only one side preserved — and the spec's
concrete header example evaluates to exactly the expected merged record. -/
theorem C9_options_merge (dflt i : HRL.RequestInit) (k : String) :
    (HRL.mergedInit dflt (some i)).fields.lookup k
        = (i.fields.lookup k).or (dflt.fields.lookup k) ∧
    ((HRL.mergedInit dflt (some i)).headers.getD []).lookup k
        = ((i.headers.getD []).lookup k).or ((dflt.headers.getD []).lookup k) ∧
    HRL.spreadObj [("Accept", "application/json")]
        [("Accept", "text/csv"), ("X-Id", "123")]
      = [("Accept", "text/csv"), ("X-Id", "123")] := by
  refine ⟨?_, ?_, by rfl⟩
  · show (HRL.spreadObj dflt.fields i.fields).lookup k = _
    exact HRL.lookup_spreadObj dflt.fields i.fields k
  · show (HRL.spreadObj (dflt.headers.getD []) (i.headers.getD [])).lookup k = _
    exact HRL.lookup_spreadObj (dflt.headers.getD []) (i.headers.getD []) k

/-- C10 (implicit): a task function that throws synchronously when invoked
from enqueue (slot free, queue empty at submission) lets the exception
escape enqueue to the submitting caller, leaves the returned handle
unsettled, and leaks the claimed slot: activeCount was incremented, the
decrement in the completion handler is never attached, and for every
sequence of later events activeCount stays equal to the in-flight count
plus the (now nonempty) leaked count — the state change is permanent. -/
theorem C10_sync_throw_leaks_slot {V : Type} (s : CLX.LimiterX V) (id : Nat)
    (e : V) (es : List (CLX.EventX V))
    (hfree : s.activeCount < s.maxConcurrent) (hq : s.queue = [])
    (hinv : CLX.InvX s) :
    (CLX.enqueueX s id (.throwsSync e)).2 = some e ∧
    ((CLX.enqueueX s id (.throwsSync e)).1).results = s.results ∧
    ((CLX.enqueueX s id (.throwsSync e)).1).activeCount = s.activeCount + 1 ∧
    ((CLX.enqueueX s id (.throwsSync e)).1).leaked = s.leaked ++ [id] ∧
    (CLX.runTraceX ((CLX.enqueueX s id (.throwsSync e)).1) es).activeCount
        = ((CLX.runTraceX ((CLX.enqueueX s id (.throwsSync e)).1) es).running.length : Int)
          + ((CLX.runTraceX ((CLX.enqueueX s id (.throwsSync e)).1) es).leaked.length : Int) ∧
    s.leaked.length + 1
        ≤ (CLX.runTraceX ((CLX.enqueueX s id (.throwsSync e)).1) es).leaked.length := by
  have henq : CLX.enqueueX s id (.throwsSync e)
      = ({ s with
            queue := ([] : List (Nat × CLX.TaskBeh V))
            activeCount := s.activeCount + 1
            started := s.started ++ [id]
            leaked := s.leaked ++ [id] }, some e) := by
    unfold CLX.enqueueX CLX.drainX
    rw [hq]
    show CLX.drainGoX 1 _ = _
    unfold CLX.drainGoX
    rw [if_pos hfree]
    rfl
  have hinv1 : CLX.InvX ((CLX.enqueueX s id (.throwsSync e)).1) := by
    rw [henq]
    unfold CLX.InvX at hinv ⊢
    simp
    omega
  obtain ⟨h5, h6⟩ :=
    CLX.invX_runTraceX ((CLX.enqueueX s id (.throwsSync e)).1) es hinv1
  refine ⟨by rw [henq], by rw [henq], by rw [henq], by rw [henq], h5, ?_⟩
  have hleak : ((CLX.enqueueX s id (.throwsSync e)).1).leaked.length
      = s.leaked.length + 1 := by
    rw [henq]
    simp
  omega

/-- Witness for C10: a fresh capacity-1 scheduler given one synchronously
throwing task. -/
theorem C10_witness :
    (CLX.LimiterX.mk (V := Nat) 1 0 [] [] [] [] []).activeCount
        < (CLX.LimiterX.mk (V := Nat) 1 0 [] [] [] [] []).maxConcurrent ∧
    (CLX.LimiterX.mk (V := Nat) 1 0 [] [] [] [] []).queue = [] ∧
    CLX.InvX (CLX.LimiterX.mk (V := Nat) 1 0 [] [] [] [] []) ∧
    (CLX.enqueueX (CLX.LimiterX.mk (V := Nat) 1 0 [] [] [] [] []) 0
        (.throwsSync 7)).2 = some 7 ∧
    ((CLX.enqueueX (CLX.LimiterX.mk (V := Nat) 1 0 [] [] [] [] []) 0
        (.throwsSync 7)).1).activeCount
      = (CLX.LimiterX.mk (V := Nat) 1 0 [] [] [] [] []).activeCount + 1 ∧
    (CLX.LimiterX.mk (V := Nat) 1 0 [] [] [] [] []).leaked.length + 1
        ≤ (CLX.runTraceX
            ((CLX.enqueueX (CLX.LimiterX.mk (V := Nat) 1 0 [] [] [] [] []) 0
              (.throwsSync 7)).1)
            [CLX.EventX.submit 1 .settles]).leaked.length := by
  have h := C10_sync_throw_leaks_slot
    (CLX.LimiterX.mk (V := Nat) 1 0 [] [] [] [] []) 0 7
    [CLX.EventX.submit 1 .settles] (by decide) (by decide)
    (by unfold CLX.InvX; decide)
  exact ⟨by decide, by decide, by unfold CLX.InvX; decide, h.1, h.2.2.1,
    h.2.2.2.2.2⟩
